import Mathlib

/-!
Verification development for the Free_room_MIET schedule-aggregation service.

The definitions below are a shallow embedding of the Python sources under
`src/`:

* `src/scheduler.py` — field extraction from upstream class items, the
  time-catalog normalization, the day mapper and the occupancy aggregation;
* `src/cache.py` — the TTL cache;
* `src/miet_api.py` — the fan-out fetch;
* `src/groups.py`, `src/rooms.py` — persisted directory normalization.

Upstream JSON scalar values reaching the extraction helpers are modelled by
`JVal` (a string or an integer; a JSON `null` or a missing key is modelled by
`Option.none`, which is exactly how `dict.get` surfaces both).  Python
truthiness on these scalars is `truthy`.  Wall-clock times (`datetime.time`)
are modelled by `PTime`; the cache clock (`time.time()`) by an integer tick.
-/

/-- A scalar JSON value as seen by the extraction helpers of `scheduler.py`. -/
inductive JVal where
  | vstr (s : String)
  | vint (n : Int)
deriving DecidableEq

/-- Python truthiness of a scalar: the empty string and the integer 0 are
falsy, everything else is truthy. -/
def truthy : JVal → Bool
  | JVal.vstr s => decide (s ≠ "")
  | JVal.vint n => decide (n ≠ 0)

/-- Python `str()` of a scalar. -/
def pyStr : JVal → String
  | JVal.vstr s => s
  | JVal.vint n => toString n

/-- Python `a or b` over two `dict.get` results: the first operand when it is
present and truthy, otherwise the second operand verbatim. -/
def pyOr (a b : Option JVal) : Option JVal :=
  match a with
  | some v => if truthy v then some v else b
  | none => b

/-- Whether a character is in Python's `str.strip` default whitespace set
(restricted to ASCII). -/
def isPySpace (c : Char) : Bool :=
  c = ' ' || c = '\t' || c = '\n' || c = '\r' || c = '\x0b' || c = '\x0c'

/-- Leading-whitespace removal on character lists. -/
def ltrimChars (cs : List Char) : List Char :=
  cs.dropWhile isPySpace

/-- Trailing-whitespace removal on character lists. -/
def rtrimChars (cs : List Char) : List Char :=
  (ltrimChars cs.reverse).reverse

/-- Python `str.strip()` (default whitespace, ASCII subset). -/
def pyStrip (s : String) : String :=
  String.mk (rtrimChars (ltrimChars s.data))

/-- Digit-run parser: `some n` when the list is a nonempty run of ASCII
digits, `none` otherwise. -/
def parseDigits : List Char → Option Nat
  | [] => none
  | [c] => if c.isDigit then some (c.toNat - '0'.toNat) else none
  | c :: rest =>
    if c.isDigit then
      (parseDigits rest).map (fun n => (c.toNat - '0'.toNat) * 10 ^ rest.length + n)
    else none

/-- Python `int(s)` on a string: strip whitespace, optional sign, digits;
`none` models the `ValueError` path. -/
def parseIntPy (s : String) : Option Int :=
  match ltrimChars (rtrimChars s.data) with
  | '-' :: rest => (parseDigits rest).map (fun n => -(n : Int))
  | '+' :: rest => (parseDigits rest).map (fun n => (n : Int))
  | cs => (parseDigits cs).map (fun n => (n : Int))

/-- Python `int(v)` on a scalar (`TypeError`/`ValueError` become `none`). -/
def pyIntOf : JVal → Option Int
  | JVal.vint n => some n
  | JVal.vstr s => parseIntPy s

/-- The `Room` field of a class item: a `{Name: ...}` object, a bare string,
or a value of any other shape (which the extractor ignores). -/
inductive RoomVal where
  | rdict (name : Option String)
  | rstr (s : String)
  | rother
deriving DecidableEq

/-- The `Time` field of a class item: a `{Code/code: ...}` object, a bare
string, or a number (which falls through to `TimeCode`/`TimeID`). -/
inductive TimeVal where
  | tdict (code codeLower : Option JVal)
  | tstr (s : String)
  | tnum (n : Int)
deriving DecidableEq

/-- One element of a schedule's `Data` array, restricted to the keys the
aggregation engine reads (`Day`, `DayNumber`, `DayNum`, `Room`, `Time`,
`TimeCode`, `TimeID`); a missing or null key is `none`. -/
structure ClassItem where
  day : Option JVal
  dayNumber : Option JVal
  dayNum : Option JVal
  room : Option RoomVal
  timeVal : Option TimeVal
  timeCode : Option JVal
  timeID : Option JVal
deriving DecidableEq

/-- `extract_room_name` from `scheduler.py`. -/
def extractRoomName (item : ClassItem) : Option String :=
  match item.room with
  | some (RoomVal.rdict name) => name
  | some (RoomVal.rstr s) => some s
  | _ => none

/-- `extract_time_code` from `scheduler.py`. -/
def extractTimeCode (item : ClassItem) : Option String :=
  match item.timeVal with
  | some (TimeVal.tdict c cl) =>
    match pyOr c cl with
    | some v => some (pyStr v)
    | none => none
  | some (TimeVal.tstr s) => some s
  | _ =>
    match pyOr item.timeCode item.timeID with
    | some v => some (pyStr v)
    | none => none

/-- `extract_day` from `scheduler.py`: the raw `Day` value, and the
`DayNumber`-or-`DayNum` value pushed through `int()` when present. -/
def extractDay (item : ClassItem) : Option JVal × Option Int :=
  (item.day, (pyOr item.dayNumber item.dayNum).bind pyIntOf)

/-- One raw entry of a schedule's `Times` array, restricted to the keys
`normalize_times` reads; a missing or null key is `none`. -/
structure RawTime where
  codeK : Option JVal
  codeLowK : Option JVal
  idK : Option JVal
  idLowK : Option JVal
  timeK : Option JVal
  nameK : Option JVal
  beginK : Option JVal
  startK : Option JVal
  timeStartK : Option JVal
  endK : Option JVal
  finishK : Option JVal
  timeEndK : Option JVal
deriving DecidableEq

/-- A schedule document (`ScheduleRecord`): the `Data` and `Times` keys the
engine reads, plus a flag recording whether the dict carries any other key
(which only matters for Python truthiness of the dict). `Data`, when
present, is an array per the upstream contract. -/
structure Schedule where
  data : Option (List ClassItem)
  times : Option (List RawTime)
  extraKeys : Bool
deriving DecidableEq

/-- Python truthiness of a schedule dict: it has at least one key. -/
def truthySchedule (s : Schedule) : Bool :=
  s.data.isSome || s.times.isSome || s.extraKeys

/-- The guard `if item_day and item_day != day_name` inside
`aggregate_occupied`: skip when the item's `Day` is truthy and differs from
the query day name. -/
def dayMismatch (qday : String) (d : Option JVal) : Bool :=
  match d with
  | some v => truthy v && decide (v ≠ JVal.vstr qday)
  | none => false

/-- The guard `if day_number is not None and item_day_num is not None and
item_day_num != day_number` inside `aggregate_occupied`. -/
def numMismatch (qnum : Option Int) (n : Option Int) : Bool :=
  match qnum, n with
  | some a, some b => decide (b ≠ a)
  | _, _ => false

/-- The per-item body of the `aggregate_occupied` loop: the room name this
item contributes to the occupied set, or `none` when one of the sequential
guards fires (the `continue` chain) or the room is absent or falsy. -/
def itemContribution (qday : String) (qnum : Option Int) (qcode : String)
    (item : ClassItem) : Option String :=
  if dayMismatch qday (extractDay item).1 then none
  else if numMismatch qnum (extractDay item).2 then none
  else if decide (extractTimeCode item ≠ some qcode) then none
  else
    match extractRoomName item with
    | some r => if decide (r ≠ "") then some r else none
    | none => none

/-- Fold step over one item: `occupied.add(room_name)` when the item
contributes. -/
def stepItem (qday : String) (qnum : Option Int) (qcode : String)
    (occ : Finset String) (item : ClassItem) : Finset String :=
  match itemContribution qday qnum qcode item with
  | some r => insert r occ
  | none => occ

/-- Fold step over one fetched schedule: `if not schedule: continue`, then
`success += 1` and the item scan over `schedule.get("Data", [])`. -/
def stepSchedule (qday : String) (qnum : Option Int) (qcode : String)
    (acc : Finset String × Nat) (sched : Option Schedule) : Finset String × Nat :=
  match sched with
  | none => acc
  | some s =>
    if truthySchedule s then
      ((s.data.getD []).foldl (stepItem qday qnum qcode) acc.1, acc.2 + 1)
    else acc

/-- `Scheduler.aggregate_occupied` from `scheduler.py`, as a pure function of
the fetched schedules (the fetch itself and the day-mapper refresh do not
influence the occupied set or the success count). -/
def aggregateOccupied (qday : String) (qnum : Option Int) (qcode : String)
    (schedules : List (Option Schedule)) : Finset String × Nat :=
  schedules.foldl (stepSchedule qday qnum qcode) (∅, 0)

example :
    aggregateOccupied "Mon" none "3"
      [some ⟨some [⟨some (JVal.vstr "Mon"), none, none, some (RoomVal.rstr "101"),
          some (TimeVal.tstr "3"), none, none⟩,
        ⟨some (JVal.vstr "Tue"), none, none, some (RoomVal.rstr "102"),
          some (TimeVal.tstr "3"), none, none⟩], none, false⟩] =
      ({"101"}, 1) := by decide

theorem dayMismatch_false_iff (qday : String) (d : Option JVal) :
    dayMismatch qday d = false ↔
      ∀ v, d = some v → truthy v = true → v = JVal.vstr qday := by
  cases d with
  | none => simp [dayMismatch]
  | some v =>
    rcases Bool.eq_false_or_eq_true (truthy v) with h | h <;>
      simp [dayMismatch, h]

theorem numMismatch_false_iff (qnum : Option Int) (n : Option Int) :
    numMismatch qnum n = false ↔
      ∀ a b, qnum = some a → n = some b → b = a := by
  cases qnum <;> cases n <;> simp [numMismatch]

theorem itemContribution_some_iff (qday : String) (qnum : Option Int)
    (qcode : String) (item : ClassItem) (r : String) :
    itemContribution qday qnum qcode item = some r ↔
      dayMismatch qday (extractDay item).1 = false ∧
      numMismatch qnum (extractDay item).2 = false ∧
      extractTimeCode item = some qcode ∧
      extractRoomName item = some r ∧ r ≠ "" := by
  unfold itemContribution
  cases hdm : dayMismatch qday (extractDay item).1 <;>
    cases hnm : numMismatch qnum (extractDay item).2 <;>
      by_cases htc : extractTimeCode item = some qcode <;>
        cases hrn : extractRoomName item <;>
          simp [htc] <;> aesop

theorem mem_foldl_stepItem (qday : String) (qnum : Option Int) (qcode : String)
    (items : List ClassItem) (occ : Finset String) (r : String) :
    r ∈ items.foldl (stepItem qday qnum qcode) occ ↔
      r ∈ occ ∨ ∃ item ∈ items, itemContribution qday qnum qcode item = some r := by
  induction items generalizing occ with
  | nil => simp
  | cons item rest ih =>
    rw [List.foldl_cons, ih]
    unfold stepItem
    cases hc : itemContribution qday qnum qcode item <;> simp [hc] <;> tauto

theorem data_eq_none_of_not_truthy (s : Schedule) (h : truthySchedule s = false) :
    s.data = none := by
  rcases s with ⟨d, t, e⟩
  cases d <;> simp_all [truthySchedule]

theorem mem_foldl_stepSchedule (qday : String) (qnum : Option Int) (qcode : String)
    (scheds : List (Option Schedule)) (acc : Finset String × Nat) (r : String) :
    r ∈ (scheds.foldl (stepSchedule qday qnum qcode) acc).1 ↔
      r ∈ acc.1 ∨ ∃ s : Schedule, some s ∈ scheds ∧ ∃ item ∈ s.data.getD [],
        itemContribution qday qnum qcode item = some r := by
  induction scheds generalizing acc with
  | nil => simp
  | cons o rest ih =>
    rw [List.foldl_cons, ih]
    cases o with
    | none => simp [stepSchedule]
    | some s =>
      by_cases ht : truthySchedule s
      · simp only [stepSchedule, ht, if_true, mem_foldl_stepItem]
        constructor
        · rintro (((h | ⟨item, hmem, hc⟩) | ⟨s2, hs2, item, hmem, hc⟩))
          · exact Or.inl h
          · exact Or.inr ⟨s, by simp, item, hmem, hc⟩
          · exact Or.inr ⟨s2, by simp [hs2], item, hmem, hc⟩
        · rintro (h | ⟨s2, hs2, item, hmem, hc⟩)
          · exact Or.inl (Or.inl h)
          · rcases List.mem_cons.mp hs2 with h2 | h2
            · cases Option.some.injEq .. ▸ h2 with
              | _ => exact Or.inl (Or.inr ⟨item, by simp_all⟩)
            · exact Or.inr ⟨s2, h2, item, hmem, hc⟩
      · have hd := data_eq_none_of_not_truthy s (by simpa using ht)
        simp [stepSchedule, ht, hd]

/-- Claim C1: for every query `(day_name, day_number, time_code)` and every
fetched schedule item, `aggregate_occupied` includes the item's room in the
occupied set iff all of: (a) the item's `Day` equals the query day name, or
the item has no truthy `Day` (absence is a wildcard, never an exclusion);
(b) when both the item's day number and the query day number are present they
are equal, otherwise the check is skipped; (c) the item's time code, as a
string, equals the query time code; and an item with no (nonempty) room or
no time code contributes nothing to the occupied set. -/
theorem claim_C1 (qday : String) (qnum : Option Int) (qcode : String)
    (schedules : List (Option Schedule)) (r : String) :
    r ∈ (aggregateOccupied qday qnum qcode schedules).1 ↔
      ∃ s : Schedule, some s ∈ schedules ∧ ∃ item ∈ s.data.getD [],
        (∀ v, (extractDay item).1 = some v → truthy v = true → v = JVal.vstr qday) ∧
        (∀ a b, qnum = some a → (extractDay item).2 = some b → b = a) ∧
        extractTimeCode item = some qcode ∧
        extractRoomName item = some r ∧ r ≠ "" := by
  have h := mem_foldl_stepSchedule qday qnum qcode schedules (∅, 0) r
  simp only [itemContribution_some_iff, dayMismatch_false_iff,
    numMismatch_false_iff, Finset.not_mem_empty, false_or] at h
  exact h

theorem success_count_foldl (qday : String) (qnum : Option Int) (qcode : String)
    (scheds : List (Option Schedule)) (acc : Finset String × Nat) :
    (scheds.foldl (stepSchedule qday qnum qcode) acc).2 =
      acc.2 + scheds.countP (fun o => (o.map truthySchedule).getD false) := by
  induction scheds generalizing acc with
  | nil => simp
  | cons o rest ih =>
    rw [List.foldl_cons, ih, List.countP_cons]
    cases o with
    | none => simp [stepSchedule]
    | some s =>
      by_cases ht : truthySchedule s <;> simp [stepSchedule, ht] <;> omega

/-- The schedule value a fetch can return for a reachable group: the JSON
object `{}`, which is not `None` but is falsy in Python. -/
def emptySchedule : Schedule := ⟨none, none, false⟩

/-- Counterexample to claim C5: over the single fetched schedule `{}` (a
non-null result), `aggregate_occupied` reports `success_count = 0`, while the
number of groups whose fetch returned non-null is 1 — the loop guard
`if not schedule` skips falsy (empty) schedules, not just null ones. -/
theorem claim_C5_counterexample :
    (aggregateOccupied "Mon" none "1" [some emptySchedule]).2 = 0 ∧
    ([some emptySchedule].countP (fun o => o.isSome)) = 1 := by
  decide

/-- Claim C5 (amended): `success_count` equals the number of groups whose
fetch returned a truthy schedule — non-null and non-empty as a dict; a
non-null but empty schedule object is not counted. -/
theorem claim_C5_amended (qday : String) (qnum : Option Int) (qcode : String)
    (scheds : List (Option Schedule)) :
    (aggregateOccupied qday qnum qcode scheds).2 =
      scheds.countP (fun o => (o.map truthySchedule).getD false) := by
  have h := success_count_foldl qday qnum qcode scheds (∅, 0)
  simpa using h

/-- Lookup in the `DayMapper._day_to_number` dict, modelled as an
insertion-ordered association list. -/
def getAssocDay : List (JVal × Int) → JVal → Option Int
  | [], _ => none
  | (k, v) :: rest, d => if k = d then some v else getAssocDay rest d

/-- Assignment `self._day_to_number[day_name] = best_num`: overwrite in
place when the key exists, append otherwise. -/
def setAssocDay : List (JVal × Int) → JVal → Int → List (JVal × Int)
  | [], d, n => [(d, n)]
  | (k, v) :: rest, d, n =>
    if k = d then (k, n) :: rest else (k, v) :: setAssocDay rest d n

/-- `stats[day_name][day_num] += 1` on the inner per-day count dict. -/
def bumpCount : List (Int × Nat) → Int → List (Int × Nat)
  | [], n => [(n, 1)]
  | (m, c) :: rest, n =>
    if m = n then (m, c + 1) :: rest else (m, c) :: bumpCount rest n

/-- Record one `(day_name, day_num)` observation in the per-call `stats`
dict. -/
def addObs : List (JVal × List (Int × Nat)) → JVal → Int →
    List (JVal × List (Int × Nat))
  | [], d, n => [(d, [(n, 1)])]
  | (k, cs) :: rest, d, n =>
    if k = d then (k, bumpCount cs n) :: rest else (k, cs) :: addObs rest d n

/-- One iteration of the tally loop of `DayMapper.update_from_items`:
`if not day_name or day_num is None: continue`, else count. -/
def statsStep (st : List (JVal × List (Int × Nat))) (item : ClassItem) :
    List (JVal × List (Int × Nat)) :=
  match extractDay item with
  | (some d, some n) => if truthy d then addObs st d n else st
  | _ => st

/-- The per-call `stats` dict of `DayMapper.update_from_items`: it is a
fresh local dict on every call. -/
def buildStats (items : List ClassItem) : List (JVal × List (Int × Nat)) :=
  items.foldl statsStep []

/-- Python `max(counts.items(), key=lambda kv: kv[1])` over a nonempty count
dict in insertion order: the first entry attaining the maximal count. -/
def maxByCount (counts : List (Int × Nat)) : Int × Nat :=
  counts.foldl (fun best kv => if kv.2 > best.2 then kv else best)
    (counts.headD (0, 0))

/-- `DayMapper.update_from_items` from `scheduler.py`: tally the batch into
a fresh `stats` dict, then for each tallied day name overwrite the mapping
with the day number of highest count in this batch (the `if not stats`
early return coincides with folding over the empty stats dict). -/
def updateFromItems (m : List (JVal × Int)) (items : List ClassItem) :
    List (JVal × Int) :=
  (buildStats items).foldl (fun mm e => setAssocDay mm e.1 (maxByCount e.2).1) m

/-- An observation of day name "Mon" with day number 1. -/
def itemMonA : ClassItem :=
  ⟨some (JVal.vstr "Mon"), some (JVal.vint 1), none, none, none, none, none⟩

/-- An observation of day name "Mon" with day number 2. -/
def itemMonB : ClassItem :=
  ⟨some (JVal.vstr "Mon"), some (JVal.vint 2), none, none, none, none, none⟩

/-- Counterexample to claim C2: after observing `("Mon",1)` twice in a first
call and `("Mon",2)` once in a second call, the mapping for "Mon" is 2 — the
last batch alone decided it. Under the claim's cumulative counting, day
number 1 (total count 2) beats day number 2 (total count 1), so the claim
predicts 1. The counts do not accumulate: `stats` is rebuilt from scratch on
every call. -/
theorem claim_C2_counterexample :
    getAssocDay
        (updateFromItems (updateFromItems [] [itemMonA, itemMonA]) [itemMonB])
        (JVal.vstr "Mon") = some 2 ∧
    getAssocDay
        (updateFromItems (updateFromItems [] [itemMonA, itemMonA]) [itemMonB])
        (JVal.vstr "Mon") ≠ some 1 := by
  decide

theorem getAssocDay_setAssocDay (m : List (JVal × Int)) (k d : JVal) (v : Int) :
    getAssocDay (setAssocDay m k v) d =
      if k = d then some v else getAssocDay m d := by
  induction m with
  | nil => simp [setAssocDay, getAssocDay]
  | cons p rest ih =>
    rcases p with ⟨k0, v0⟩
    by_cases h0 : k0 = k
    · subst h0
      by_cases hd : k0 = d <;> simp [setAssocDay, getAssocDay, hd]
    · by_cases hd : k0 = d
      · subst hd
        have hk : ¬k = k0 := fun h2 => h0 h2.symm
        simp [setAssocDay, getAssocDay, h0, hk]
      · simp [setAssocDay, getAssocDay, h0, hd, ih]

theorem getAssocDay_foldl_not_mem (stats : List (JVal × List (Int × Nat)))
    (m : List (JVal × Int)) (d : JVal) (h : d ∉ stats.map Prod.fst) :
    getAssocDay
        (stats.foldl (fun mm e => setAssocDay mm e.1 (maxByCount e.2).1) m) d =
      getAssocDay m d := by
  induction stats generalizing m with
  | nil => rfl
  | cons e rest ih =>
    simp only [List.map_cons, List.mem_cons, not_or] at h
    rw [List.foldl_cons, ih _ h.2, getAssocDay_setAssocDay]
    have hne : ¬e.1 = d := fun h2 => h.1 h2.symm
    simp [hne]

theorem getAssocDay_foldl_mem (stats : List (JVal × List (Int × Nat)))
    (m1 m2 : List (JVal × Int)) (d : JVal) (h : d ∈ stats.map Prod.fst) :
    getAssocDay
        (stats.foldl (fun mm e => setAssocDay mm e.1 (maxByCount e.2).1) m1) d =
      getAssocDay
        (stats.foldl (fun mm e => setAssocDay mm e.1 (maxByCount e.2).1) m2) d := by
  induction stats generalizing m1 m2 with
  | nil => simp at h
  | cons e rest ih =>
    by_cases hr : d ∈ rest.map Prod.fst
    · rw [List.foldl_cons, List.foldl_cons]
      exact ih _ _ hr
    · have hd : e.1 = d := by
        simp only [List.map_cons, List.mem_cons] at h
        rcases h with h | h
        · exact h.symm
        · exact absurd h hr
      rw [List.foldl_cons, List.foldl_cons,
        getAssocDay_foldl_not_mem _ _ _ hr, getAssocDay_foldl_not_mem _ _ _ hr,
        getAssocDay_setAssocDay, getAssocDay_setAssocDay, hd]
      simp

theorem foldl_best_mem (l : List (Int × Nat)) (b : Int × Nat) :
    List.foldl (fun best kv => if kv.2 > best.2 then kv else best) b l = b ∨
      List.foldl (fun best kv => if kv.2 > best.2 then kv else best) b l ∈ l := by
  induction l generalizing b with
  | nil => exact Or.inl rfl
  | cons c cs ih =>
    rw [List.foldl_cons]
    by_cases hc : c.2 > b.2
    · rw [if_pos hc]
      rcases ih c with h | h
      · exact Or.inr (by rw [h]; exact List.mem_cons_self c cs)
      · exact Or.inr (List.mem_cons_of_mem c h)
    · rw [if_neg hc]
      rcases ih b with h | h
      · exact Or.inl h
      · exact Or.inr (List.mem_cons_of_mem c h)

theorem foldl_best_ge (l : List (Int × Nat)) (b : Int × Nat) :
    b.2 ≤ (List.foldl (fun best kv => if kv.2 > best.2 then kv else best) b l).2 ∧
    ∀ kv ∈ l,
      kv.2 ≤ (List.foldl (fun best kv => if kv.2 > best.2 then kv else best) b l).2 := by
  induction l generalizing b with
  | nil => exact ⟨le_refl _, by simp⟩
  | cons c cs ih =>
    rw [List.foldl_cons]
    by_cases hc : c.2 > b.2
    · rw [if_pos hc]
      obtain ⟨h1, h2⟩ := ih c
      refine ⟨le_trans (le_of_lt hc) h1, ?_⟩
      intro kv hkv
      rcases List.mem_cons.mp hkv with h | h
      · exact h ▸ h1
      · exact h2 kv h
    · rw [if_neg hc]
      obtain ⟨h1, h2⟩ := ih b
      refine ⟨h1, ?_⟩
      intro kv hkv
      rcases List.mem_cons.mp hkv with h | h
      · exact h ▸ le_trans (Nat.le_of_not_lt hc) h1
      · exact h2 kv h

/-- `maxByCount` over a nonempty count dict returns one of its entries, and
that entry attains the maximal count. -/
theorem maxByCount_spec (c0 : Int × Nat) (rest : List (Int × Nat)) :
    maxByCount (c0 :: rest) ∈ c0 :: rest ∧
    ∀ kv ∈ c0 :: rest, kv.2 ≤ (maxByCount (c0 :: rest)).2 := by
  have hdef : maxByCount (c0 :: rest) =
      List.foldl (fun best kv => if kv.2 > best.2 then kv else best) c0
        (c0 :: rest) := rfl
  constructor
  · rw [hdef]
    rcases foldl_best_mem (c0 :: rest) c0 with h | h
    · rw [h]
      exact List.mem_cons_self c0 rest
    · exact h
  · rw [hdef]
    exact (foldl_best_ge (c0 :: rest) c0).2

theorem bumpCount_ne_nil (cs : List (Int × Nat)) (n : Int) :
    bumpCount cs n ≠ [] := by
  cases cs with
  | nil => simp [bumpCount]
  | cons c rest =>
    rcases c with ⟨m, k⟩
    by_cases h : m = n <;> simp [bumpCount, h]

theorem addObs_counts_ne_nil (st : List (JVal × List (Int × Nat))) (d : JVal)
    (n : Int) (h : ∀ e ∈ st, e.2 ≠ []) : ∀ e ∈ addObs st d n, e.2 ≠ [] := by
  induction st with
  | nil =>
    intro e he
    simp only [addObs, List.mem_singleton] at he
    simp [he]
  | cons p rest ih =>
    rcases p with ⟨k, cs⟩
    intro e he
    by_cases hk : k = d
    · simp only [addObs, if_pos hk, List.mem_cons] at he
      rcases he with he | he
      · rw [he]
        exact bumpCount_ne_nil cs n
      · exact h e (List.mem_cons_of_mem _ he)
    · simp only [addObs, if_neg hk, List.mem_cons] at he
      rcases he with he | he
      · rw [he]
        exact h (k, cs) (List.mem_cons_self _ _)
      · exact ih (fun e2 he2 => h e2 (List.mem_cons_of_mem _ he2)) e he

theorem statsStep_counts_ne_nil (st : List (JVal × List (Int × Nat)))
    (item : ClassItem) (h : ∀ e ∈ st, e.2 ≠ []) :
    ∀ e ∈ statsStep st item, e.2 ≠ [] := by
  rcases hed : extractDay item with ⟨od, onum⟩
  cases od with
  | none =>
    cases onum <;> simpa [statsStep, hed] using h
  | some dv =>
    cases onum with
    | none => simpa [statsStep, hed] using h
    | some n =>
      by_cases ht : truthy dv
      · simpa [statsStep, hed, ht] using addObs_counts_ne_nil st dv n h
      · simpa [statsStep, hed, ht] using h

theorem buildStats_counts_ne_nil (items : List ClassItem) :
    ∀ e ∈ buildStats items, e.2 ≠ [] := by
  suffices hgen : ∀ st, (∀ e ∈ st, e.2 ≠ []) →
      ∀ e ∈ items.foldl statsStep st, e.2 ≠ [] by
    exact hgen [] (by simp)
  induction items with
  | nil =>
    intro st hst
    simpa using hst
  | cons item rest ih =>
    intro st hst
    rw [List.foldl_cons]
    exact ih (statsStep st item) (statsStep_counts_ne_nil st item hst)

theorem addObs_keys (st : List (JVal × List (Int × Nat))) (d : JVal) (n : Int) :
    (addObs st d n).map Prod.fst =
      if d ∈ st.map Prod.fst then st.map Prod.fst
      else st.map Prod.fst ++ [d] := by
  induction st with
  | nil => simp [addObs]
  | cons p rest ih =>
    rcases p with ⟨k, cs⟩
    by_cases hk : k = d
    · subst hk
      simp [addObs]
    · have hdk : ¬d = k := fun h2 => hk h2.symm
      by_cases hd : d ∈ rest.map Prod.fst <;>
        simp [addObs, hk, hdk, hd, ih]

theorem addObs_keys_nodup (st : List (JVal × List (Int × Nat))) (d : JVal)
    (n : Int) (h : (st.map Prod.fst).Nodup) :
    ((addObs st d n).map Prod.fst).Nodup := by
  rw [addObs_keys]
  by_cases hd : d ∈ st.map Prod.fst
  · rw [if_pos hd]
    exact h
  · rw [if_neg hd]
    simp [List.nodup_append, h, hd]

theorem statsStep_keys_nodup (st : List (JVal × List (Int × Nat)))
    (item : ClassItem) (h : (st.map Prod.fst).Nodup) :
    ((statsStep st item).map Prod.fst).Nodup := by
  rcases hed : extractDay item with ⟨od, onum⟩
  cases od with
  | none =>
    cases onum <;> simpa [statsStep, hed] using h
  | some dv =>
    cases onum with
    | none => simpa [statsStep, hed] using h
    | some n =>
      by_cases ht : truthy dv
      · simpa [statsStep, hed, ht] using addObs_keys_nodup st dv n h
      · simpa [statsStep, hed, ht] using h

theorem buildStats_keys_nodup (items : List ClassItem) :
    ((buildStats items).map Prod.fst).Nodup := by
  suffices hgen : ∀ st, (st.map Prod.fst).Nodup →
      ((items.foldl statsStep st).map Prod.fst).Nodup by
    exact hgen [] (by simp)
  induction items with
  | nil =>
    intro st hst
    simpa using hst
  | cons item rest ih =>
    intro st hst
    rw [List.foldl_cons]
    exact ih (statsStep st item) (statsStep_keys_nodup st item hst)

theorem getAssocDay_foldl_of_mem (stats : List (JVal × List (Int × Nat)))
    (m : List (JVal × Int)) (d : JVal) (counts : List (Int × Nat))
    (hnd : (stats.map Prod.fst).Nodup) (hmem : (d, counts) ∈ stats) :
    getAssocDay
        (stats.foldl (fun mm e => setAssocDay mm e.1 (maxByCount e.2).1) m) d =
      some (maxByCount counts).1 := by
  induction stats generalizing m with
  | nil => simp at hmem
  | cons e rest ih =>
    rw [List.foldl_cons]
    rw [List.map_cons, List.nodup_cons] at hnd
    rcases List.mem_cons.mp hmem with h | h
    · have hkey : d ∉ rest.map Prod.fst := by
        have he1 : e.1 = d := by rw [← h]
        exact he1 ▸ hnd.1
      rw [getAssocDay_foldl_not_mem rest _ d hkey, getAssocDay_setAssocDay,
        ← h]
      simp
    · exact ih _ hnd.2 h

/-- Claim C2 (amended): `update_from_items` tallies each call's batch in a
fresh stats dict, so the mapping after a call is, for every day name tallied
in that batch, determined by that batch alone (it does not depend on the
mapper's prior state, hence not on cumulative counts) and is set to the day
number of an entry attaining the highest count within that batch, while the
entry of every day name not tallied in the batch persists unchanged — the
mapping is only overwritten entry-by-entry, never reset. -/
theorem claim_C2_amended (m1 m2 : List (JVal × Int)) (items : List ClassItem)
    (d : JVal) :
    (d ∈ (buildStats items).map Prod.fst →
      getAssocDay (updateFromItems m1 items) d =
        getAssocDay (updateFromItems m2 items) d) ∧
    (d ∉ (buildStats items).map Prod.fst →
      getAssocDay (updateFromItems m1 items) d = getAssocDay m1 d) ∧
    (∀ counts, (d, counts) ∈ buildStats items →
      getAssocDay (updateFromItems m1 items) d = some (maxByCount counts).1 ∧
      maxByCount counts ∈ counts ∧
      ∀ kv ∈ counts, kv.2 ≤ (maxByCount counts).2) := by
  refine ⟨fun h => getAssocDay_foldl_mem (buildStats items) m1 m2 d h,
    fun h => getAssocDay_foldl_not_mem (buildStats items) m1 d h, ?_⟩
  intro counts hmem
  have hne : counts ≠ [] := buildStats_counts_ne_nil items (d, counts) hmem
  obtain ⟨c0, rest2, rfl⟩ := List.exists_cons_of_ne_nil hne
  exact ⟨getAssocDay_foldl_of_mem (buildStats items) m1 d (c0 :: rest2)
      (buildStats_keys_nodup items) hmem,
    (maxByCount_spec c0 rest2).1, (maxByCount_spec c0 rest2).2⟩

theorem claim_C2_amended_witness :
    getAssocDay (updateFromItems [] [itemMonA, itemMonA, itemMonB])
        (JVal.vstr "Mon") = some 1 ∧
    maxByCount [((1 : Int), 2), (2, 1)] ∈ [((1 : Int), 2), (2, 1)] ∧
    (∀ kv ∈ [((1 : Int), 2), (2, 1)],
      kv.2 ≤ (maxByCount [((1 : Int), 2), (2, 1)]).2) ∧
    getAssocDay (updateFromItems [(JVal.vstr "Tue", 4)] [itemMonA])
        (JVal.vstr "Tue") =
      getAssocDay [(JVal.vstr "Tue", 4)] (JVal.vstr "Tue") :=
  ⟨((claim_C2_amended [] [] [itemMonA, itemMonA, itemMonB]
        (JVal.vstr "Mon")).2.2 [((1 : Int), 2), (2, 1)] (by decide)).1,
   ((claim_C2_amended [] [] [itemMonA, itemMonA, itemMonB]
        (JVal.vstr "Mon")).2.2 [((1 : Int), 2), (2, 1)] (by decide)).2.1,
   ((claim_C2_amended [] [] [itemMonA, itemMonA, itemMonB]
        (JVal.vstr "Mon")).2.2 [((1 : Int), 2), (2, 1)] (by decide)).2.2,
   (claim_C2_amended [(JVal.vstr "Tue", 4)] [] [itemMonA]
        (JVal.vstr "Tue")).2.1 (by decide)⟩

/-- A class item whose `DayNumber` is the falsy integer 0 and whose `DayNum`
is also the integer 0. -/
def cexItemC9 : ClassItem :=
  ⟨some (JVal.vstr "Mon"), some (JVal.vint 0), some (JVal.vint 0),
    none, none, none, none⟩

/-- Counterexample to claim C9: on an item whose `DayNumber` is the falsy 0
and whose `DayNum` is also the integer 0, `extract_day` returns day number 0
(not absent): the `or`-chain yields the raw 0 from `DayNum`, which passes the
`is not None` test and survives `int()`. Such an item therefore can fail the
day-number equality check of `aggregate_occupied` (here against query day
number 1), and it does contribute a `("Mon", 0)` observation to the Day
Mapper: `update_from_items` over this single item maps "Mon" to 0. -/
theorem claim_C9_counterexample :
    (extractDay cexItemC9).2 = some 0 ∧
    numMismatch (some 1) (extractDay cexItemC9).2 = true ∧
    getAssocDay (updateFromItems [] [cexItemC9]) (JVal.vstr "Mon") = some 0 := by
  decide

/-- Claim C9 (amended): for every class item whose `DayNumber` is absent or
falsy, `extract_day` falls through to the raw `DayNum` value followed by
`int()` conversion; in particular the day number is absent when `DayNum` is
absent, and when `DayNum` is a string that does not parse as an integer
(including the empty string) — but an integer `DayNum` of 0 yields day
number 0, and any such item with a truthy day name and an extracted day
number is tallied by the Day Mapper: over a single-item batch,
`update_from_items` maps the item's day name to its extracted day number. -/
theorem claim_C9_amended (item : ClassItem)
    (h : ∀ v, item.dayNumber = some v → truthy v = false) :
    (extractDay item).2 = item.dayNum.bind pyIntOf ∧
    (item.dayNum = none → (extractDay item).2 = none) ∧
    (∀ s, item.dayNum = some (JVal.vstr s) → parseIntPy s = none →
      (extractDay item).2 = none) ∧
    (∀ dv n, item.day = some dv → truthy dv = true →
      (extractDay item).2 = some n →
      getAssocDay (updateFromItems [] [item]) dv = some n) := by
  have hor : pyOr item.dayNumber item.dayNum = item.dayNum := by
    cases hdn : item.dayNumber with
    | none => simp [pyOr]
    | some v => simp [pyOr, h v hdn]
  refine ⟨by simp [extractDay, hor], ?_, ?_, ?_⟩
  · intro h2
    show (pyOr item.dayNumber item.dayNum).bind pyIntOf = none
    rw [hor, h2]
    rfl
  · intro s hs hp
    show (pyOr item.dayNumber item.dayNum).bind pyIntOf = none
    rw [hor, hs]
    simp [pyIntOf, hp]
  · intro dv n hdv htr hnum
    have hed : extractDay item = (some dv, some n) := by
      have h2 : (pyOr item.dayNumber item.dayNum).bind pyIntOf = some n := hnum
      show (item.day, (pyOr item.dayNumber item.dayNum).bind pyIntOf) =
        (some dv, some n)
      rw [hdv, h2]
    have hbs : buildStats [item] = [(dv, [(n, 1)])] := by
      show statsStep [] item = [(dv, [(n, 1)])]
      simp [statsStep, hed, htr, addObs]
    show getAssocDay
        ((buildStats [item]).foldl
          (fun mm e => setAssocDay mm e.1 (maxByCount e.2).1) []) dv = some n
    rw [hbs]
    simp [getAssocDay, setAssocDay, maxByCount]

theorem claim_C9_amended_witness :
    (extractDay ⟨some (JVal.vstr "Mon"), some (JVal.vint 0),
        some (JVal.vstr ""), none, none, none, none⟩).2 = none ∧
    getAssocDay (updateFromItems [] [cexItemC9]) (JVal.vstr "Mon") = some 0 :=
  ⟨(claim_C9_amended
      ⟨some (JVal.vstr "Mon"), some (JVal.vint 0), some (JVal.vstr ""),
        none, none, none, none⟩
      (fun v hv => by cases hv; rfl)).2.2.1 "" rfl (by decide),
   (claim_C9_amended cexItemC9
      (fun v hv => by cases hv; rfl)).2.2.2 (JVal.vstr "Mon") 0 rfl (by decide)
      (by decide)⟩

/-- Lookup in the `TTLCache._data` dict (`key -> (expires_at, value)`),
modelled as an association list with unique keys; the clock is an integer
tick. -/
def lookupCache {α : Type} : List (String × Int × α) → String → Option (Int × α)
  | [], _ => none
  | (k, e) :: rest, key => if k = key then some e else lookupCache rest key

/-- `self._data.pop(key, None)`: since dict keys are unique, removal is
dropping every entry for the key. -/
def removeKey {α : Type} (st : List (String × Int × α)) (key : String) :
    List (String × Int × α) :=
  st.filter (fun p => decide (p.1 ≠ key))

/-- `self._data[key] = entry`: overwrite in place or append. -/
def storeCache {α : Type} : List (String × Int × α) → String → Int × α →
    List (String × Int × α)
  | [], key, e => [(key, e)]
  | (k0, e0) :: rest, key, e =>
    if k0 = key then (k0, e) :: rest else (k0, e0) :: storeCache rest key e

/-- `TTLCache.get` from `cache.py`: absent key gives `None`; an entry with
`expires_at < now` is evicted and gives `None`; otherwise the value. Returns
the answer together with the cache state after the call. -/
def cacheGet {α : Type} (st : List (String × Int × α)) (now : Int)
    (key : String) : Option α × List (String × Int × α) :=
  match lookupCache st key with
  | none => (none, st)
  | some (exp, v) => if exp < now then (none, removeKey st key) else (some v, st)

/-- `TTLCache.set` from `cache.py`: store `(now + ttl, value)`. -/
def cacheSet {α : Type} (st : List (String × Int × α)) (now ttl : Int)
    (key : String) (v : α) : List (String × Int × α) :=
  storeCache st key (now + ttl, v)

/-- `TTLCache.get_or_set` from `cache.py`, with the factory's outcome for
this call passed as a value (`none` models a factory returning `None`). -/
def getOrSet {α : Type} (st : List (String × Int × α)) (now ttl : Int)
    (key : String) (fres : Option α) : Option α × List (String × Int × α) :=
  match cacheGet st now key with
  | (some v, st1) => (some v, st1)
  | (none, st1) =>
    match fres with
    | some v => (some v, cacheSet st1 now ttl key v)
    | none => (none, st1)

/-- Counterexample to claim C4: with an entry whose `expires_at` is 100, a
`get` at `now = 100` (that is, `now >= expires_at`) returns the stored value
rather than absent — the code expires strictly, `expires_at < now`. -/
theorem claim_C4_counterexample :
    (cacheGet [("g", (100, (7 : Nat)))] 100 "g").1 = some 7 ∧
    (cacheGet [("g", (100, (7 : Nat)))] 100 "g").1 ≠ none := by
  decide

theorem lookupCache_removeKey {α : Type} (st : List (String × Int × α))
    (key : String) : lookupCache (removeKey st key) key = none := by
  induction st with
  | nil => rfl
  | cons p rest ih =>
    rcases p with ⟨k, e⟩
    by_cases hk : k = key <;> simp [removeKey, hk, lookupCache] at ih ⊢ <;>
      simpa [removeKey, hk] using ih

/-- Claim C4 (amended): a cache entry expires precisely when
`now > expires_at`: a `get` performed when `now <= expires_at` returns the
stored value, and a `get` performed when `now > expires_at` returns absent
and lazily evicts the entry. -/
theorem claim_C4_amended {α : Type} (st : List (String × Int × α))
    (now key exp) (v : α) (h : lookupCache st key = some (exp, v)) :
    (now ≤ exp → cacheGet st now key = (some v, st)) ∧
    (exp < now → cacheGet st now key = (none, removeKey st key) ∧
      lookupCache (removeKey st key) key = none) := by
  constructor
  · intro hle
    unfold cacheGet
    rw [h]
    simp [not_lt.mpr hle]
  · intro hlt
    unfold cacheGet
    rw [h]
    simp [hlt, lookupCache_removeKey]

theorem claim_C4_amended_witness :
    cacheGet [("g", (100, (7 : Nat)))] 100 "g" = (some 7, [("g", (100, 7))]) ∧
    cacheGet [("g", (100, (7 : Nat)))] 101 "g" = (none, []) :=
  ⟨(claim_C4_amended [("g", (100, (7 : Nat)))] 100 "g" 100 7 rfl).1 (by decide),
   ((claim_C4_amended [("g", (100, (7 : Nat)))] 101 "g" 100 7 rfl).2
      (by decide)).1⟩

theorem cacheGet_none_lookup {α : Type} (st : List (String × Int × α))
    (now : Int) (key : String) (st1 : List (String × Int × α))
    (h : cacheGet st now key = (none, st1)) : lookupCache st1 key = none := by
  unfold cacheGet at h
  cases hl : lookupCache st key with
  | none =>
    rw [hl] at h
    cases h
    exact hl
  | some e =>
    rcases e with ⟨exp, v⟩
    rw [hl] at h
    by_cases hc : exp < now
    · simp only [hc, if_true] at h
      cases h
      exact lookupCache_removeKey st key
    · simp only [hc, if_false] at h
      cases h

theorem cacheGet_of_lookup_none {α : Type} (st : List (String × Int × α))
    (now : Int) (key : String) (h : lookupCache st key = none) :
    cacheGet st now key = (none, st) := by
  unfold cacheGet
  rw [h]

/-- Claim C6: `get_or_set` never stores a null factory result — on a cache
miss with a factory returning `None`, nothing is written (the key stays
absent), and any subsequent `get_or_set` for the same key takes the factory
branch again, at every later time; when the factory returns non-null, the
result is stored (with a fresh expiry) and returned. -/
theorem claim_C6 {α : Type} (st : List (String × Int × α)) (now ttl : Int)
    (key : String) (st1 : List (String × Int × α))
    (h : cacheGet st now key = (none, st1)) :
    getOrSet st now ttl key none = (none, st1) ∧
    lookupCache st1 key = none ∧
    (∀ v : α, getOrSet st now ttl key (some v) =
      (some v, cacheSet st1 now ttl key v)) ∧
    (∀ (now2 : Int) (fres : Option α), getOrSet st1 now2 ttl key fres =
      (match fres with
       | some v => (some v, cacheSet st1 now2 ttl key v)
       | none => (none, st1))) := by
  have hl := cacheGet_none_lookup st now key st1 h
  refine ⟨?_, hl, ?_, ?_⟩
  · unfold getOrSet
    rw [h]
  · intro v
    unfold getOrSet
    rw [h]
  · intro now2 fres
    unfold getOrSet
    rw [cacheGet_of_lookup_none st1 now2 key hl]

theorem claim_C6_witness :
    getOrSet [("g", ((10 : Int), (5 : Nat)))] 50 120 "g" none = (none, []) ∧
    getOrSet [("g", ((10 : Int), (5 : Nat)))] 50 120 "g" (some 9) =
      (some 9, cacheSet [] 50 120 "g" 9) :=
  ⟨(claim_C6 [("g", ((10 : Int), (5 : Nat)))] 50 120 "g" [] (by decide)).1,
   (claim_C6 [("g", ((10 : Int), (5 : Nat)))] 50 120 "g" [] (by decide)).2.2.1 9⟩

/-- The outcome of one group's `_get_schedule` task inside the gather: a
returned value (`ok`, possibly `None` from the per-request exception
containment of `_post_schedule`), or a task-level exception surfaced by
`return_exceptions=True`. -/
inductive FetchOutcome (α : Type) where
  | ok (v : Option α)
  | exn
deriving DecidableEq

/-- The post-gather normalization in `fetch_all`: an exception result is
logged and replaced by `None`. -/
def runOutcome {α : Type} : FetchOutcome α → Option α
  | FetchOutcome.ok v => v
  | FetchOutcome.exn => none

/-- `MietAPI.fetch_all` from `miet_api.py`, as a function of the per-group
task outcomes: `asyncio.gather` returns results in task-submission order
(the order of the input groups) regardless of completion order, and the zip
replaces exceptions by `None`; the early return on an empty group list
coincides with mapping over the empty list. -/
def fetchAll {α : Type} (f : String → FetchOutcome α) (groups : List String) :
    List (Option α) :=
  groups.map (fun g => runOutcome (f g))

/-- Claim C3: `fetch_all(G)` returns exactly `len(G)` results in the same
order as `G`, each position holding that group's outcome with `None` in
place of a raised or timed-out fetch, and the result at a position depends
only on that group's own outcome — one group's failure never affects the
others. -/
theorem claim_C3 {α : Type} (f g2 : String → FetchOutcome α)
    (groups : List String) (i : Nat) (h : i < groups.length) :
    (fetchAll f groups).length = groups.length ∧
    (fetchAll f groups)[i]? = some (runOutcome (f groups[i])) ∧
    (f groups[i] = g2 groups[i] →
      (fetchAll f groups)[i]? = (fetchAll g2 groups)[i]?) := by
  refine ⟨by simp [fetchAll], ?_, ?_⟩
  · simp [fetchAll, List.getElem?_eq_getElem h]
  · intro he
    simp [fetchAll, List.getElem?_eq_getElem h, he]

/-- A mock fetch in which group "b" raises and every other group returns a
schedule value. -/
def mockFetch : String → FetchOutcome Nat :=
  fun g => if g = "b" then FetchOutcome.exn else FetchOutcome.ok (some 3)

theorem claim_C3_witness :
    (fetchAll mockFetch ["a", "b", "c"]).length = 3 ∧
    (fetchAll mockFetch ["a", "b", "c"])[1]? = some none := by
  have h := claim_C3 mockFetch mockFetch ["a", "b", "c"] 1 (by decide)
  exact ⟨h.1, by rw [h.2.1]; rfl⟩

/-- `str.startswith` on character lists. -/
def startsWithChars : List Char → List Char → Bool
  | _, [] => true
  | [], _ :: _ => false
  | c :: cs, q :: qs => decide (c = q) && startsWithChars cs qs

/-- `room.startswith(p)`. -/
def pyStartsWith (room p : String) : Bool :=
  startsWithChars room.data p.data

/-- Lexicographic code-point comparison of character lists (Python string
`<=`). -/
def charLeb : List Char → List Char → Bool
  | [], _ => true
  | _ :: _, [] => false
  | a :: as, b :: bs => if a = b then charLeb as bs else decide (a < b)

/-- Python `sorted` on a list of strings (ascending, code-point
lexicographic, stable). -/
def pySorted (l : List String) : List String :=
  List.insertionSort (fun a b => charLeb a.data b.data = true) l

/-- `filter_rooms_by_prefix` from `scheduler.py`; the argument is
`str | None`, and `not prefix` covers both `None` and the empty string. -/
def filterRoomsByCorpus (rooms : List String) (p : Option String) : List String :=
  match p with
  | none => pySorted rooms
  | some s =>
    if s = "" || s = "all" then pySorted rooms
    else pySorted (rooms.filter (fun room => pyStartsWith room s))

theorem startsWithChars_iff_take (ps rs : List Char) :
    startsWithChars rs ps = true ↔ rs.take ps.length = ps := by
  induction ps generalizing rs with
  | nil => simp [startsWithChars]
  | cons q qs ih =>
    cases rs with
    | nil => simp [startsWithChars]
    | cons c cs => simp [startsWithChars, ih]

/-- Claim C8: over a two-digit corpus code `p`, `filter_rooms_by_prefix`
keeps exactly the rooms whose first two characters equal `p`; on the
concrete rooms `{"101","203","102"}` with `p = "10"` it yields
`["101","102"]`; with a `None`, empty, or `"all"` corpus it returns the
input unchanged apart from ordering. -/
theorem claim_C8 (rooms : List String) (p : String)
    (hlen : p.data.length = 2) (hdig : ∀ c ∈ p.data, c.isDigit) :
    (∀ r, r ∈ filterRoomsByCorpus rooms (some p) ↔
      r ∈ rooms ∧ r.data.take 2 = p.data) ∧
    filterRoomsByCorpus ["101", "203", "102"] (some "10") = ["101", "102"] ∧
    (filterRoomsByCorpus rooms none).Perm rooms ∧
    (filterRoomsByCorpus rooms (some "")).Perm rooms ∧
    (filterRoomsByCorpus rooms (some "all")).Perm rooms := by
  have hne : ¬(p = "" || p = "all") = true := by
    intro hc
    rcases Bool.or_eq_true_iff.mp hc with hc | hc
    · rw [decide_eq_true_iff] at hc
      subst hc
      simp at hlen
    · rw [decide_eq_true_iff] at hc
      subst hc
      simp at hlen
  refine ⟨?_, by decide, ?_, ?_, ?_⟩
  · intro r
    simp only [filterRoomsByCorpus]
    rw [if_neg hne]
    unfold pySorted
    rw [List.mem_insertionSort, List.mem_filter]
    rw [pyStartsWith, startsWithChars_iff_take, hlen]
  · exact List.perm_insertionSort _ _
  · simp only [filterRoomsByCorpus]
    rw [if_pos (by decide)]
    exact List.perm_insertionSort _ _
  · simp only [filterRoomsByCorpus]
    rw [if_pos (by decide)]
    exact List.perm_insertionSort _ _

theorem claim_C8_witness :
    filterRoomsByCorpus ["101", "203", "102"] (some "10") = ["101", "102"] :=
  (claim_C8 ["101", "203", "102"] "10" (by decide) (by decide)).2.1

theorem dropWhile_self_idem {α : Type} (p : α → Bool) (l : List α) :
    List.dropWhile p (List.dropWhile p l) = List.dropWhile p l := by
  induction l with
  | nil => rfl
  | cons c cs ih =>
    by_cases h : p c
    · simp [List.dropWhile_cons, h, ih]
    · simp [List.dropWhile_cons, h]

theorem ltrimChars_idem (l : List Char) :
    ltrimChars (ltrimChars l) = ltrimChars l :=
  dropWhile_self_idem isPySpace l

theorem ltrimChars_append (xs ys : List Char) :
    ltrimChars (xs ++ ys) =
      if ltrimChars xs = [] then ltrimChars ys else ltrimChars xs ++ ys := by
  induction xs with
  | nil => simp [ltrimChars]
  | cons c cs ih =>
    by_cases h : isPySpace c
    · simp [ltrimChars, List.dropWhile_cons, h] at ih ⊢
      exact ih
    · simp [ltrimChars, List.dropWhile_cons, h]

theorem rtrimChars_idem (l : List Char) :
    rtrimChars (rtrimChars l) = rtrimChars l := by
  unfold rtrimChars
  rw [List.reverse_reverse, ltrimChars_idem]

theorem rtrimChars_eq_nil_ltrim (cs : List Char) (h : rtrimChars cs = []) :
    ltrimChars cs = [] := by
  unfold rtrimChars at h
  rw [List.reverse_eq_nil_iff] at h
  unfold ltrimChars at h ⊢
  rw [List.dropWhile_eq_nil_iff] at h ⊢
  intro x hx
  exact h x (List.mem_reverse.mpr hx)

theorem rtrimChars_cons (c : Char) (cs : List Char) :
    rtrimChars (c :: cs) =
      if rtrimChars cs = [] then (if isPySpace c then [] else [c])
      else c :: rtrimChars cs := by
  have h1 : rtrimChars (c :: cs) = (ltrimChars (cs.reverse ++ [c])).reverse := by
    unfold rtrimChars
    rw [List.reverse_cons]
  rw [h1, ltrimChars_append]
  by_cases hz : ltrimChars cs.reverse = []
  · have hz2 : rtrimChars cs = [] := by
      unfold rtrimChars
      rw [hz]
      rfl
    rw [if_pos hz, if_pos hz2]
    by_cases hp : isPySpace c <;>
      simp [ltrimChars, List.dropWhile_cons, hp]
  · have hz2 : ¬rtrimChars cs = [] := by
      unfold rtrimChars
      rw [List.reverse_eq_nil_iff]
      exact hz
    rw [if_neg hz, if_neg hz2, List.reverse_append]
    rfl

theorem ltrim_rtrim_comm (l : List Char) :
    ltrimChars (rtrimChars l) = rtrimChars (ltrimChars l) := by
  induction l with
  | nil => rfl
  | cons c cs ih =>
    by_cases hp : isPySpace c
    · have hlt : ltrimChars (c :: cs) = ltrimChars cs := by
        simp [ltrimChars, List.dropWhile_cons, hp]
      rw [rtrimChars_cons, hlt]
      by_cases hz : rtrimChars cs = []
      · rw [if_pos hz, if_pos hp]
        have h2 : ltrimChars cs = [] := rtrimChars_eq_nil_ltrim cs hz
        rw [h2]
        rfl
      · rw [if_neg hz]
        have h3 : ltrimChars (c :: rtrimChars cs) = ltrimChars (rtrimChars cs) := by
          simp [ltrimChars, List.dropWhile_cons, hp]
        rw [h3, ih]
    · have hlt : ltrimChars (c :: cs) = c :: cs := by
        simp [ltrimChars, List.dropWhile_cons, hp]
      rw [rtrimChars_cons, hlt, rtrimChars_cons]
      by_cases hz : rtrimChars cs = []
      · rw [if_pos hz, if_neg hp]
        simp [ltrimChars, List.dropWhile_cons, hp]
      · rw [if_neg hz]
        simp [ltrimChars, List.dropWhile_cons, hp]

theorem pyStrip_idem (s : String) : pyStrip (pyStrip s) = pyStrip s := by
  show String.mk (rtrimChars (ltrimChars (rtrimChars (ltrimChars s.data)))) =
    String.mk (rtrimChars (ltrimChars s.data))
  rw [ltrim_rtrim_comm (ltrimChars s.data), ltrimChars_idem, rtrimChars_idem]

theorem pyStrip_empty : pyStrip "" = "" := rfl

/-- `_normalize_groups` from `groups.py`, whose body is identical to
`_normalize_rooms` from `rooms.py`:
`sorted({g.strip() for g in groups if g and g.strip()})` — strip every
entry, drop falsy (empty) entries and entries that strip to empty,
deduplicate through a set, and sort. -/
def normalizeNames (gs : List String) : List String :=
  Finset.sort (fun a b => a ≤ b)
    (((gs.filter (fun g => decide (g ≠ "") && decide (pyStrip g ≠ ""))).map
      pyStrip).toFinset)

theorem normalizeNames_def (gs : List String) :
    normalizeNames gs =
      Finset.sort (fun a b => a ≤ b)
        (((gs.filter (fun g => decide (g ≠ "") && decide (pyStrip g ≠ ""))).map
          pyStrip).toFinset) :=
  rfl

/-- `load_groups` / `load_rooms`: the persisted JSON array is normalized on
read; a missing file or a parse failure (the `none` case) yields the empty
list. -/
def loadNames (parsed : Option (List String)) : List String :=
  match parsed with
  | none => []
  | some l => normalizeNames l

/-- `save_groups` / `save_rooms`: the JSON array written to disk is the
normalized input (JSON serialization of a string array is faithful, so the
file content is modelled by the list itself). -/
def saveNames (gs : List String) : List String :=
  normalizeNames gs

theorem normalizeNames_mem_stripped (X : List String) (s : String)
    (h : s ∈ normalizeNames X) : pyStrip s = s ∧ s ≠ "" := by
  rw [normalizeNames_def, Finset.mem_sort, List.mem_toFinset, List.mem_map] at h
  obtain ⟨g, hg, rfl⟩ := h
  rw [List.mem_filter] at hg
  have h2 := hg.2
  rw [Bool.and_eq_true, decide_eq_true_iff, decide_eq_true_iff] at h2
  exact ⟨pyStrip_idem g, h2.2⟩

theorem map_id_of_fixed {α : Type} (f : α → α) (l : List α)
    (h : ∀ a ∈ l, f a = a) : l.map f = l := by
  induction l with
  | nil => rfl
  | cons c cs ih =>
    rw [List.map_cons, h c (by simp), ih (fun a ha => h a (by simp [ha]))]

theorem normalizeNames_idem (X : List String) :
    normalizeNames (normalizeNames X) = normalizeNames X := by
  have h1 : (normalizeNames X).filter
      (fun g => decide (g ≠ "") && decide (pyStrip g ≠ "")) = normalizeNames X := by
    rw [List.filter_eq_self]
    intro a ha
    obtain ⟨hfix, hne⟩ := normalizeNames_mem_stripped X a ha
    rw [Bool.and_eq_true, decide_eq_true_iff, decide_eq_true_iff, hfix]
    exact ⟨hne, hne⟩
  have h2 : (normalizeNames X).map pyStrip = normalizeNames X :=
    map_id_of_fixed pyStrip (normalizeNames X)
      (fun a ha => (normalizeNames_mem_stripped X a ha).1)
  conv_lhs => rw [normalizeNames_def]
  rw [h1, h2]
  conv_lhs => rw [normalizeNames_def X]
  rw [Finset.sort_toFinset]
  exact (normalizeNames_def X).symm

/-- Claim C7: for every collection of strings `X`, the round-trip
`save(load(save(X)))` reproduces exactly the sorted, deduplicated,
whitespace-trimmed, empty-entry-free form of `X`, and `load` after `save`
is idempotent under this normalization; the normalized form is sorted,
duplicate-free, and holds exactly the nonempty stripped entries of `X`.
This covers both the groups file and the rooms file, whose normalize, save
and load routines are textually identical. -/
theorem claim_C7 (X : List String) :
    saveNames (loadNames (some (saveNames X))) = normalizeNames X ∧
    loadNames (some (saveNames X)) = saveNames X ∧
    (normalizeNames X).Sorted (fun a b => a ≤ b) ∧
    (normalizeNames X).Nodup ∧
    (∀ s, s ∈ normalizeNames X ↔ s ≠ "" ∧ ∃ g ∈ X, pyStrip g = s) := by
  refine ⟨?_, ?_, ?_, ?_, ?_⟩
  · show normalizeNames (normalizeNames (normalizeNames X)) = normalizeNames X
    rw [normalizeNames_idem, normalizeNames_idem]
  · show normalizeNames (normalizeNames X) = normalizeNames X
    exact normalizeNames_idem X
  · rw [normalizeNames_def]
    exact Finset.sort_sorted _ _
  · rw [normalizeNames_def]
    exact Finset.sort_nodup _ _
  · intro s
    rw [normalizeNames_def, Finset.mem_sort, List.mem_toFinset, List.mem_map]
    constructor
    · rintro ⟨g, hg, rfl⟩
      rw [List.mem_filter] at hg
      have h2 := hg.2
      rw [Bool.and_eq_true, decide_eq_true_iff, decide_eq_true_iff] at h2
      exact ⟨h2.2, g, hg.1, rfl⟩
    · rintro ⟨hne, g, hgX, rfl⟩
      refine ⟨g, ?_, rfl⟩
      rw [List.mem_filter, Bool.and_eq_true, decide_eq_true_iff,
        decide_eq_true_iff]
      refine ⟨hgX, ?_, hne⟩
      intro hg0
      rw [hg0] at hne
      exact hne pyStrip_empty

/-- A `datetime.time` wall-clock value (hour, minute) as produced by
`_parse_time_value`. -/
structure PTime where
  hour : Nat
  minute : Nat
deriving DecidableEq

/-- Comparison of `datetime.time` values (lexicographic, as in Python). -/
def pleb (a b : PTime) : Bool :=
  decide (a.hour < b.hour ∨ (a.hour = b.hour ∧ a.minute ≤ b.minute))

/-- A full-string match of `^(\d{1,2}):(\d{2})$`: the hour and minute digit
values. -/
def hmOfChars : List Char → Option (Nat × Nat)
  | [h1, ':', m1, m2] =>
    if h1.isDigit && m1.isDigit && m2.isDigit then
      some (h1.toNat - 48, (m1.toNat - 48) * 10 + (m2.toNat - 48))
    else none
  | [h1, h2, ':', m1, m2] =>
    if h1.isDigit && h2.isDigit && m1.isDigit && m2.isDigit then
      some ((h1.toNat - 48) * 10 + (h2.toNat - 48),
        (m1.toNat - 48) * 10 + (m2.toNat - 48))
    else none
  | _ => none

/-- `_parse_time_value` from `scheduler.py`: falsy input gives `None`; strip,
match `^(\d{1,2}):(\d{2})$`, reject hour > 23 or minute > 59. -/
def parseTimeValue (s : String) : Option PTime :=
  if s = "" then none
  else
    match hmOfChars (pyStrip s).data with
    | none => none
    | some (h, m) => if h > 23 || m > 59 then none else some ⟨h, m⟩

/-- Match `\d{1,2}:\d{2}` at the head of the list, greedy on the hour
digits; returns the matched characters and the remainder. When the
two-digit-hour form matches, the one-digit form cannot (the second
character cannot be both a digit and a colon), so no joint backtracking
with the rest of the range pattern is needed. -/
def timeAt (cs : List Char) : Option (List Char × List Char) :=
  match cs with
  | a :: b :: ':' :: c :: d :: rest =>
    if a.isDigit && b.isDigit && c.isDigit && d.isDigit then
      some ([a, b, ':', c, d], rest)
    else
      match cs with
      | a2 :: ':' :: c2 :: d2 :: rest2 =>
        if a2.isDigit && c2.isDigit && d2.isDigit then
          some ([a2, ':', c2, d2], rest2)
        else none
      | _ => none
  | a :: ':' :: c :: d :: rest =>
    if a.isDigit && c.isDigit && d.isDigit then
      some ([a, ':', c, d], rest)
    else none
  | _ => none

/-- After the first time of the range pattern: `\s*[-–]\s*(\d{1,2}:\d{2})`,
returning the second captured time. -/
def rangeTail (cs : List Char) : Option (List Char) :=
  match cs.dropWhile isPySpace with
  | d :: r3 =>
    if d = '-' || d = '–' then
      match timeAt (r3.dropWhile isPySpace) with
      | some (t2, _) => some t2
      | none => none
    else none
  | [] => none

/-- Attempt the whole range pattern `(\d{1,2}:\d{2})\s*[-–]\s*(\d{1,2}:\d{2})`
at the head of the list, returning the two captured groups. -/
def rangeAt (cs : List Char) : Option (List Char × List Char) :=
  match timeAt cs with
  | some (t1, rest) =>
    match rangeTail rest with
    | some t2 => some (t1, t2)
    | none => none
  | none => none

/-- `re.search` for the range pattern: the leftmost position at which it
matches. -/
def searchRange : List Char → Option (List Char × List Char)
  | [] => none
  | c :: rest =>
    match rangeAt (c :: rest) with
    | some r => some r
    | none => searchRange rest

/-- `_parse_time_range` from `scheduler.py`: falsy input gives `None`;
search for the range pattern; both captured times must parse (with bounds
checks) or the whole range is `None`. -/
def parseTimeRange (s : String) : Option (PTime × PTime) :=
  if s = "" then none
  else
    match searchRange s.data with
    | none => none
    | some (t1, t2) =>
      match parseTimeValue (String.mk t1), parseTimeValue (String.mk t2) with
      | some a, some b => some (a, b)
      | _, _ => none

/-- `raw.get("Code") or raw.get("code") or raw.get("ID") or raw.get("Id")`. -/
def codeChain (raw : RawTime) : Option JVal :=
  pyOr (pyOr (pyOr raw.codeK raw.codeLowK) raw.idK) raw.idLowK

/-- `raw.get("Time") or raw.get("Name") or ""`. -/
def labelChain (raw : RawTime) : JVal :=
  match pyOr raw.timeK raw.nameK with
  | some v => if truthy v then v else JVal.vstr ""
  | none => JVal.vstr ""

/-- `raw.get("Begin") or raw.get("Start") or raw.get("TimeStart")`. -/
def beginChain (raw : RawTime) : Option JVal :=
  pyOr (pyOr raw.beginK raw.startK) raw.timeStartK

/-- `raw.get("End") or raw.get("Finish") or raw.get("TimeEnd")`. -/
def endChain (raw : RawTime) : Option JVal :=
  pyOr (pyOr raw.endK raw.finishK) raw.timeEndK

/-- `time.strftime("%H:%M")`: zero-padded two-digit fields. -/
def pad2 (n : Nat) : String :=
  if n < 10 then "0" ++ toString n else toString n

/-- The label synthesized by `normalize_times` when absent:
`f"{start:%H:%M}-{end:%H:%M}"`. -/
def formatHM (t : PTime) : String :=
  pad2 t.hour ++ ":" ++ pad2 t.minute

/-- One normalized `Times` entry, `{code, label, start, end}` (the `end`
field is named `stop` because `end` is a Lean keyword). -/
structure NTime where
  code : String
  label : JVal
  start : Option PTime
  stop : Option PTime
deriving DecidableEq

/-- The entry `normalize_times` appends for a raw entry whose code chain
produced the value `cv`: parse `Begin`/`End` when truthy, fall back to the
label's embedded range when either bound is missing, and synthesize a label
from the bounds when the label is falsy. -/
def mkNTime (raw : RawTime) (cv : JVal) : NTime :=
  let label0 := labelChain raw
  let st0 := match beginChain raw with
    | some v => if truthy v then parseTimeValue (pyStr v) else none
    | none => none
  let en0 := match endChain raw with
    | some v => if truthy v then parseTimeValue (pyStr v) else none
    | none => none
  let bounds :=
    if (st0.isNone || en0.isNone) && truthy label0 then
      match parseTimeRange (pyStr label0) with
      | some (a, b) => (some a, some b)
      | none => (st0, en0)
    else (st0, en0)
  let label1 :=
    if !truthy label0 && bounds.1.isSome && bounds.2.isSome then
      match bounds.1, bounds.2 with
      | some a, some b => JVal.vstr (formatHM a ++ "-" ++ formatHM b)
      | _, _ => label0
    else label0
  ⟨pyStr cv, label1, bounds.1, bounds.2⟩

/-- `normalize_times` from `scheduler.py`: entries whose code chain yields
`None` are skipped; the rest are normalized in order. -/
def normalizeTimes : List RawTime → List NTime
  | [] => []
  | raw :: rest =>
    match codeChain raw with
    | none => normalizeTimes rest
    | some cv => mkNTime raw cv :: normalizeTimes rest

/-- The loop of `time_to_code`: skip entries missing either bound, return
the first code whose `start <= target <= end`. -/
def timeToCodeGo : List NTime → PTime → Option String
  | [], _ => none
  | e :: rest, target =>
    match e.start, e.stop with
    | some s, some en =>
      if pleb s target && pleb target en then some e.code
      else timeToCodeGo rest target
    | _, _ => timeToCodeGo rest target

/-- `time_to_code` from `scheduler.py` (`times or []` handles a `None`
catalog). -/
def timeToCode (times : Option (List RawTime)) (target : PTime) : Option String :=
  timeToCodeGo (normalizeTimes (times.getD [])) target

/-- Whether a normalized entry has both bounds present and contains the
target, endpoints inclusive. -/
def entryMatches (target : PTime) (e : NTime) : Bool :=
  match e.start, e.stop with
  | some s, some en => pleb s target && pleb target en
  | _, _ => false

theorem timeToCodeGo_eq_find (l : List NTime) (target : PTime) :
    timeToCodeGo l target =
      (List.find? (entryMatches target) l).map NTime.code := by
  induction l with
  | nil => rfl
  | cons e rest ih =>
    cases hs : e.start with
    | none => simp [timeToCodeGo, entryMatches, List.find?_cons, hs, ih]
    | some s =>
      cases he : e.stop with
      | none => simp [timeToCodeGo, entryMatches, List.find?_cons, hs, he, ih]
      | some en =>
        by_cases hm : (pleb s target && pleb target en) = true
        · simp [timeToCodeGo, entryMatches, List.find?_cons, hs, he, hm]
        · simp [timeToCodeGo, entryMatches, List.find?_cons, hs, he, hm, ih]

/-- Claim C10: for every time catalog and target wall-clock time,
`time_to_code` returns the slot code of the first normalized entry (in
catalog order) whose start and end bounds are both present and satisfy
`start <= target <= end` with both endpoints inclusive, and returns absent
exactly when no entry with parseable bounds contains the target — entries
with missing or unparsable bounds are skipped, never matched. -/
theorem claim_C10 (times : Option (List RawTime)) (target : PTime) :
    timeToCode times target =
      (List.find? (entryMatches target) (normalizeTimes (times.getD []))).map
        NTime.code ∧
    (timeToCode times target = none ↔
      ∀ e ∈ normalizeTimes (times.getD []), entryMatches target e = false) := by
  constructor
  · exact timeToCodeGo_eq_find (normalizeTimes (times.getD [])) target
  · rw [timeToCode, timeToCodeGo_eq_find]
    rw [Option.map_eq_none']
    rw [List.find?_eq_none]
    constructor
    · intro h e he
      exact Bool.not_eq_true _ ▸ h e he
    · intro h e he
      rw [h e he]
      exact Bool.false_ne_true

/-- A raw catalog entry with code 1 and bounds 9:00 to 10:30. -/
def rawSlotOne : RawTime :=
  ⟨some (JVal.vint 1), none, none, none, some (JVal.vstr "9:00-10:30"), none,
    some (JVal.vstr "9:00"), none, none, some (JVal.vstr "10:30"), none, none⟩

example : timeToCode (some [rawSlotOne]) ⟨9, 0⟩ = some "1" := by decide

example : timeToCode (some [rawSlotOne]) ⟨10, 30⟩ = some "1" := by decide

example : timeToCode (some [rawSlotOne]) ⟨10, 31⟩ = none := by decide

example : timeToCode (some [rawSlotOne]) ⟨8, 59⟩ = none := by decide
